import Mathlib

/-!
# Verification of `deepchem/metalearning/torch_maml.py`

A shallow embedding of the MAML implementation in
`deepchem/metalearning/torch_maml.py` (class `TorchMAML`), together with
proofs settling the specification claims about it.

Conventions of the embedding:

* Tensor values are rationals (one scalar per parameter tensor suffices for
  the properties at issue; floating-point rounding is not modelled).
* PyTorch autograd is modelled only as far as this file exercises it:
  `backward()` (called without `create_graph`) accumulates the derivative of
  the loss into the `.grad` buffer of every *leaf* tensor reachable in the
  recorded graph; the accumulated numbers are detached from the graph;
  a non-leaf tensor's `.grad` stays `None` (no `retain_grad`); reading
  `.clone()` on a `None` gradient raises `AttributeError`;
  `optimizer.zero_grad()` resets buffers to `None` (the modern PyTorch
  default `set_to_none=True`; a buffer that was never populated is `None`
  under every version).
* The checkpoint directory is an association list from file name (a list of
  characters, compared like Python strings) to the payload written by
  `torch.save`.
* Python exceptions are `Except` errors.
-/

namespace TorchMamlModel

/-- A runtime PyTorch tensor as it flows through `TorchMAML._compute_meta_loss`
(torch_maml.py, lines 233-252): a rational value together with the autograd
bookkeeping relevant to that code path.  `deps` lists the indices of the
original leaf variables reachable from this tensor in the recorded graph,
`dLeaf j` is the derivative of `val` with respect to leaf `j` (the value that
reverse-mode `backward` accumulates into `.grad`; `backward()` is called
without `create_graph`, so these numbers are detached from the graph), and
`leafIdx` is `some j` exactly when this tensor *is* leaf `j`: only leaf
tensors own a `.grad` buffer, a non-leaf tensor's `.grad` stays `None`. -/
structure RTensor where
  val : ℚ
  deps : List ℕ
  dLeaf : ℕ → ℚ
  leafIdx : Option ℕ

/-- Leaf tensor number `j` (entry `j` of `learner.variables`) with value `x`. -/
def leafT (j : ℕ) (x : ℚ) : RTensor :=
  ⟨x, [j], fun i => if i = j then 1 else 0, some j⟩

/-- Tensor product, with the product rule for the recorded graph. -/
def rtMul (a b : RTensor) : RTensor :=
  ⟨a.val * b.val, a.deps ++ b.deps,
    fun j => a.val * b.dLeaf j + b.val * a.dLeaf j, none⟩

/-- The inner-loop update `v - self.learning_rate * g` (line 245).  `g` is a
cloned `.grad` value, hence a plain number detached from the autograd graph:
the result's graph dependence is exactly that of `v`, and the result is not a
leaf. -/
def subDetached (v : RTensor) (lr g : ℚ) : RTensor :=
  ⟨v.val - lr * g, v.deps, v.dLeaf, none⟩

/-- `loss.backward()` acting on the `.grad` buffers of the original leaf
variables (buffers are indexed in the order of `learner.variables`; `none` is
PyTorch's `None`).  Every leaf in the recorded graph of `loss` has the
derivative of `loss` added to its buffer; leaves outside the graph keep their
buffer, in particular a never-populated buffer stays `None`. -/
def backward (loss : RTensor) (bufs : List (Option ℚ)) : List (Option ℚ) :=
  bufs.mapIdx fun j b => if j ∈ loss.deps then some (b.getD 0 + loss.dLeaf j) else b

/-- Reading `t.grad`: a leaf returns its buffer (possibly `None`), a non-leaf
always returns `None` (no `retain_grad` is ever called in this file). -/
def tensorGrad (bufs : List (Option ℚ)) (t : RTensor) : Option ℚ :=
  match t.leafIdx with
  | some j => bufs.getD j none
  | none => none

/-- Python exceptions raised by the modelled code paths. -/
inductive PyErr where
  | attributeError
  | fileNotFoundError
deriving DecidableEq

/-- `[i.grad.clone() for i in ts]` (lines 243 and 251): calling `.clone()` on
a `None` gradient raises `AttributeError` before any `g is None` test can
run. -/
def gradCloneList (bufs : List (Option ℚ)) : List RTensor → Except PyErr (List ℚ)
  | [] => .ok []
  | t :: ts =>
    match tensorGrad bufs t with
    | none => .error .attributeError
    | some g =>
      match gradCloneList bufs ts with
      | .error e => .error e
      | .ok gs => .ok (g :: gs)

/-- What one call of `_compute_meta_loss` produces: the meta-loss value, the
returned `meta_gradients` list, and the `.grad` buffers it leaves behind. -/
structure MetaLossResult where
  metaLossVal : ℚ
  metaGradients : List ℚ
  bufs : List (Option ℚ)
deriving DecidableEq

/-- The inner loop of `_compute_meta_loss` (lines 238-247), iterated
`optimization_steps` times: evaluate the loss at the current adapted
variables, `backward` it (accumulating into the original leaves' `.grad`
buffers, which are never zeroed inside this function), clone each adapted
tensor's `.grad` (raising `AttributeError` when it is `None`), and update.
After a successful `.clone()` no entry of `gradients` is `None`, so the
source's `v if g is None else v - self.learning_rate * g` (line 245) always
takes the `else` branch. -/
def innerLoopM (model : List RTensor → RTensor) (lr : ℚ) :
    ℕ → List RTensor → List (Option ℚ) →
    Except PyErr (List RTensor × List (Option ℚ))
  | 0, updated, bufs => .ok (updated, bufs)
  | k + 1, updated, bufs =>
    let loss := model updated
    let bufs2 := backward loss bufs
    match gradCloneList bufs2 updated with
    | .error e => .error e
    | .ok gradients =>
      innerLoopM model lr k
        ((updated.zip gradients).map fun vg => subDetached vg.1 lr vg.2) bufs2

/-- `TorchMAML._compute_meta_loss` (lines 233-252).  `model1`/`model2` are
`learner.compute_model` applied to the two batches; `origVars` are the
original leaves (`learner.variables`); `bufs` are their `.grad` buffers on
entry. -/
def computeMetaLoss (model1 model2 : List RTensor → RTensor) (lr : ℚ)
    (optimizationSteps : ℕ) (origVars : List RTensor)
    (bufs : List (Option ℚ)) : Except PyErr MetaLossResult :=
  match innerLoopM model1 lr optimizationSteps origVars bufs with
  | .error e => .error e
  | .ok (updated, bufs2) =>
    let metaLoss := model2 updated
    let bufs3 := backward metaLoss bufs2
    match gradCloneList bufs3 origVars with
    | .error e => .error e
    | .ok metaGradients => .ok ⟨metaLoss.val, metaGradients, bufs3⟩

/-- All-zero fallback tensor (the default of `getD`; never reached in the
concrete instances used below). -/
def zeroT : RTensor := ⟨0, [], fun _ => 0, none⟩

/-- The concrete task model used as test input: `loss(p) = p₀²` where `p₀`
is the first parameter tensor (a scalar).  Any further parameters do not
occur in the computation, so they receive no gradient. -/
def quadLoss (ps : List RTensor) : RTensor :=
  rtMul (ps.getD 0 zeroT) (ps.getD 0 zeroT)

/-- One task, as the `fit` loop sees it after `learner.select_task()`:
`compute_model` specialised to the two batches returned by the two
`get_batch()` calls (lines 215-217). -/
structure TaskInstance where
  lossA : List RTensor → RTensor
  lossB : List RTensor → RTensor

/-- What one outer iteration of `fit` leaves behind just before
`self._pytorch_optimizer.step()` (line 224): the `.grad` buffers the
optimizer step will consume, the list of `meta_gradients` values returned by
the `meta_batch_size` calls of `_compute_meta_loss`, and the
`summed_gradients` variable of lines 218-223 (computed but never read
afterwards). -/
structure OuterIterResult where
  bufs : List (Option ℚ)
  perTaskGradients : List (List ℚ)
  summedGradients : List ℚ
deriving DecidableEq

/-- The task loop of one outer iteration of `fit` (lines 214-223). -/
def metaBatchLoop (tasks : ℕ → TaskInstance) (lr : ℚ) (innerSteps : ℕ)
    (origVars : List RTensor) :
    ℕ → ℕ → List (Option ℚ) → List (List ℚ) → List ℚ →
    Except PyErr OuterIterResult
  | 0, _, bufs, perTask, summed => .ok ⟨bufs, perTask.reverse, summed⟩
  | rem + 1, j, bufs, perTask, summed =>
    match computeMetaLoss (tasks j).lossA (tasks j).lossB lr innerSteps origVars bufs with
    | .error e => .error e
    | .ok r =>
      let summed2 :=
        if j = 0 then r.metaGradients
        else (summed.zip r.metaGradients).map fun sg => sg.1 + sg.2
      metaBatchLoop tasks lr innerSteps origVars rem (j + 1) r.bufs
        (r.metaGradients :: perTask) summed2

/-- One outer iteration of `fit` (lines 213-224): zero the `.grad` buffers
(`zero_grad`, line 213), run the task loop, and stop just before
`self._pytorch_optimizer.step()`, whose applied gradient is the `bufs` field
of the result (a PyTorch optimizer step consumes `param.grad`;
`summed_gradients` is never passed to it). -/
def fitIteration (tasks : ℕ → TaskInstance) (lr : ℚ)
    (innerSteps metaBatchSize : ℕ) (paramVals : List ℚ) :
    Except PyErr OuterIterResult :=
  metaBatchLoop tasks lr innerSteps (paramVals.mapIdx fun j x => leafT j x)
    metaBatchSize 0 (paramVals.map fun _ => none) [] []

/-- The outer loop of `fit` (lines 212-231), tracking the `_global_step`
value recorded in each checkpoint written.  `tasks i j` is the task selected
at outer iteration `i`, task index `j`; `optStep` abstracts the outer
optimizer's parameter update (Adam lives outside this file); `ckptFlag i`
abstracts the wall-clock test `time.time() >= checkpoint_time +
checkpoint_interval` of lines 228-229 (the final iteration always
checkpoints).  The body of `fit` contains no assignment to `_global_step`,
so the embedding threads `gs` unchanged; each checkpoint records the current
`gs` (line 333-334). -/
def fitLoop (tasks : ℕ → ℕ → TaskInstance)
    (optStep : List (Option ℚ) → List ℚ → List ℚ) (lr : ℚ)
    (innerSteps metaBatchSize nSteps : ℕ) (ckptFlag : ℕ → Bool) (gs : ℕ) :
    ℕ → List ℚ → List ℕ → Except PyErr (List ℚ × List ℕ)
  | 0, vals, trace => .ok (vals, trace.reverse)
  | rem + 1, vals, trace =>
    let i := nSteps - (rem + 1)
    match fitIteration (tasks i) lr innerSteps metaBatchSize vals with
    | .error e => .error e
    | .ok r =>
      let vals2 := optStep r.bufs vals
      let trace2 := if i = nSteps - 1 || ckptFlag i then gs :: trace else trace
      fitLoop tasks optStep lr innerSteps metaBatchSize nSteps ckptFlag gs rem vals2 trace2

/-- `fit(steps, ...)` run from the start: returns the final parameter values
and the list of `_global_step` values recorded in the checkpoints written,
in the order they were written. -/
def fitRun (tasks : ℕ → ℕ → TaskInstance)
    (optStep : List (Option ℚ) → List ℚ → List ℚ) (lr : ℚ)
    (innerSteps metaBatchSize nSteps : ℕ) (ckptFlag : ℕ → Bool) (gs : ℕ)
    (vals0 : List ℚ) : Except PyErr (List ℚ × List ℕ) :=
  fitLoop tasks optStep lr innerSteps metaBatchSize nSteps ckptFlag gs nSteps vals0 []

/-- File names are lists of characters; Python compares strings
character-by-character by code point. -/
abbrev FName := List Char

/-- The checkpoint directory, as an association list from file name to file
payload (`α` stands for the record `torch.save` serialized). -/
abbrev FS (α : Type) := List (FName × α)

/-- Contents of the file named `n`, if it exists. -/
def lookupF {α : Type} (n : FName) : FS α → Option α
  | [] => none
  | e :: fs => if e.1 = n then some e.2 else lookupF n fs

/-- `os.path.exists`. -/
def existsF {α : Type} (n : FName) (fs : FS α) : Bool :=
  (lookupF n fs).isSome

/-- Deleting the file named `n` (`os.remove`). -/
def removeF {α : Type} (n : FName) (fs : FS α) : FS α :=
  fs.filter fun e => !(decide (e.1 = n))

/-- Creating or overwriting the file named `n` (`torch.save(data, n)`). -/
def writeF {α : Type} (n : FName) (a : α) (fs : FS α) : FS α :=
  (n, a) :: removeF n fs

/-- `os.rename old new`: a no-op when `old` is absent (the source only calls
it on names it just created or explicitly checked with `os.path.exists`, so
that branch is never exercised). -/
def renameF {α : Type} (old new : FName) (fs : FS α) : FS α :=
  match lookupF old fs with
  | none => fs
  | some a => writeF new a (removeF old fs)

/-- The decimal digit character of `n < 10` (one digit of Python's `%d`). -/
def digitChar (n : ℕ) : Char :=
  match n with
  | 0 => '0' | 1 => '1' | 2 => '2' | 3 => '3' | 4 => '4'
  | 5 => '5' | 6 => '6' | 7 => '7' | 8 => '8' | _ => '9'

/-- Fuelled decimal rendering (structural recursion, so concrete values
reduce inside the kernel; the fuel is irrelevant once it exceeds `n`). -/
def decReprAux : ℕ → ℕ → List Char
  | 0, _ => []
  | fuel + 1, n =>
    if n < 10 then [digitChar n]
    else decReprAux fuel (n / 10) ++ [digitChar (n % 10)]

/-- Python's `'%d' % n`: the decimal rendering of `n`, no padding, no sign. -/
def decRepr (n : ℕ) : List Char := decReprAux (n + 1) n

/-- `'checkpoint%d.pt' % i` (line 342). -/
def slotName (i : ℕ) : FName :=
  "checkpoint".toList ++ decRepr i ++ ".pt".toList

/-- `'temp_checkpoint.pt'` (line 336). -/
def tempName : FName := "temp_checkpoint.pt".toList

/-- The filter of `get_checkpoints` (lines 364-366):
`f.startswith('checkpoint') and f.endswith('.pt')`. -/
def matchingName (n : FName) : Bool :=
  "checkpoint".toList.isPrefixOf n && ".pt".toList.isSuffixOf n

/-- The shift loop of `save_checkpoint` (lines 347-349):
`for i in reversed(range(max_checkpoints_to_keep - 1))`, renaming
`checkpoint(i+1)` to `checkpoint(i+2)` when present.  `shiftFrom k` performs
the iterations `i = k-1, k-2, ..., 0`; the source runs it with
`k = max_checkpoints_to_keep - 1`. -/
def shiftFrom {α : Type} : ℕ → FS α → FS α
  | 0, fs => fs
  | k + 1, fs =>
    shiftFrom k
      (if existsF (slotName (k + 1)) fs then
        renameF (slotName (k + 1)) (slotName (k + 2)) fs
      else fs)

/-- `TorchMAML.save_checkpoint` (lines 303-350) acting on the directory:
write the record to the temporary file, delete the highest slot when present
(`paths[-1]`, which is `checkpoint<N>.pt` for `max_checkpoints_to_keep =
N ≥ 1`; for `N = 0` the source raises `IndexError`, a case outside every
claim), shift every occupied slot up by one from the second-highest down,
and finally move the temporary file into slot 1. -/
def saveCheckpoint {α : Type} (maxCkpts : ℕ) (data : α) (fs : FS α) : FS α :=
  let fs1 := writeF tempName data fs
  let fs2 :=
    if existsF (slotName maxCkpts) fs1 then removeF (slotName maxCkpts) fs1
    else fs1
  let fs3 := shiftFrom (maxCkpts - 1) fs2
  renameF tempName (slotName 1) fs3

/-- `get_checkpoints` (lines 352-367): the files of the directory whose name
starts with `checkpoint` and ends with `.pt`.  All names carry the same
`model_dir + '/'` prefix, which does not affect their relative order, so the
prefix is omitted. -/
def getCheckpoints {α : Type} (fs : FS α) : List FName :=
  (fs.map Prod.fst).filter matchingName

/-- Python string `<`: lexicographic comparison by character code point. -/
def lexLt : FName → FName → Bool
  | [], [] => false
  | [], _ :: _ => true
  | _ :: _, [] => false
  | a :: as, b :: bs => if a < b then true else if a = b then lexLt as bs else false

/-- Helper of `minName`. -/
def minNameAux : FName → List FName → FName
  | acc, [] => acc
  | acc, n :: ns => minNameAux (if lexLt n acc then n else acc) ns

/-- `sorted(names)[0]`: the least name under Python string order (the file
`restore` picks at lines 256-259), `none` when the list is empty. -/
def minName : List FName → Option FName
  | [] => none
  | n :: ns => some (minNameAux n ns)

/-- The state `restore` reads and writes — the learner's `__dict__`, the two
optimizers' states, `_global_step` — plus the `_lr_schedule` field, which
`restore` does not touch.  `M`, `O`, `T` abstract the serialized shapes. -/
structure MState (M O T : Type) where
  modelState : M
  optState : O
  taskOptState : T
  globalStep : ℕ
  lrSched : Option (ℕ → ℚ)

/-- One checkpoint record (the `data` dictionary of lines 326-335):
`model_state_dict` (the learner's `__dict__`), both optimizer state dicts,
and `global_step`.

Modelled from the spec: `torch.save`/`torch.load` and the optimizers'
`state_dict`/`load_state_dict` pairs live outside the sources under
scrutiny (torch, `deepchem.models.optimizers`); per the spec's checkpoint
payload description they are faithful serialization, i.e. loading a saved
record yields the record. -/
structure CkptData (M O T : Type) where
  modelState : M
  optState : O
  taskOptState : T
  globalStep : ℕ
deriving DecidableEq

/-- The record `save_checkpoint` writes for state `s` (lines 326-335). -/
def ckptDataOf {M O T : Type} (s : MState M O T) : CkptData M O T :=
  ⟨s.modelState, s.optState, s.taskOptState, s.globalStep⟩

/-- `TorchMAML.restore` (lines 254-265): pick the lexicographically first
checkpoint file (`sorted(...)[0]`), fail with
`ValueError('No checkpoint found')` when no file matches, otherwise load the
record and overwrite the learner's `__dict__`, both optimizers' states and
`_global_step`.  On the error path the raise happens before any assignment,
so the state is untouched (the `Except` carries no new state).  The second
error branch is unreachable: the chosen name was listed from the
directory. -/
def restoreSt {M O T : Type} (fs : FS (CkptData M O T)) (s : MState M O T) :
    Except (List Char) (MState M O T) :=
  match minName (getCheckpoints fs) with
  | none => .error "No checkpoint found".toList
  | some n =>
    match lookupF n fs with
    | some d => .ok ⟨d.modelState, d.optState, d.taskOptState, d.globalStep, s.lrSched⟩
    | none => .error "checkpoint file vanished".toList

/-- The directory contents after `m` consecutive saves: slot `i+1` holds the
`(i+1)`-th most recent payload `ps i`. -/
def canonList {α : Type} (ps : ℕ → α) (q : ℕ) : FS α :=
  (List.range q).map fun i => (slotName (i + 1), ps i)

/-- `canonList` shifted up one slot. -/
def canonShift {α : Type} (ps : ℕ → α) (q : ℕ) : FS α :=
  (List.range q).map fun i => (slotName (i + 2), ps i)

/-- Prepend a newest payload to a payload sequence. -/
def consSeq {α : Type} (p : α) (ps : ℕ → α) : ℕ → α
  | 0 => p
  | i + 1 => ps i

/-- `m` consecutive calls of `save_checkpoint`, the `t`-th writing `P t`. -/
def saveIter {α : Type} (maxCkpts : ℕ) (P : ℕ → α) : ℕ → FS α → FS α
  | 0, fs => fs
  | m + 1, fs => saveCheckpoint maxCkpts (P m) (saveIter maxCkpts P m fs)

/-- A tensor attribute of the learner object, reduced to the datum the
device-placement claim is about: which device it lives on. -/
structure PyTensor where
  dev : List Char
deriving DecidableEq

/-- `self.learner.<name> = self.learner.<name>.to(device)` for one attribute
(lines 153-158): reading a missing attribute raises `AttributeError`. -/
def moveAttr (dev : List Char) (name : List Char) (attrs : FS PyTensor) :
    Except PyErr (FS PyTensor) :=
  match lookupF name attrs with
  | none => .error .attributeError
  | some _ => .ok (writeF name ⟨dev⟩ attrs)

/-- The six hard-coded attribute names of lines 153-158, in source order. -/
def sixNames : List (List Char) :=
  ["w1".toList, "b1".toList, "w2".toList, "b2".toList, "w3".toList, "b3".toList]

/-- Sequentially move the named attributes to `dev`, stopping at the first
missing one. -/
def moveAttrs (dev : List Char) : List (List Char) → FS PyTensor →
    Except PyErr (FS PyTensor)
  | [], attrs => .ok attrs
  | n :: ns, attrs =>
    match moveAttr dev n attrs with
    | .error e => .error e
    | .ok a2 => moveAttrs dev ns a2

/-- The device-placement part of `TorchMAML.__init__` (lines 153-158): move
exactly the attributes `w1, b1, w2, b2, w3, b3` of the learner to the
selected device. -/
def initDeviceMove (dev : List Char) (attrs : FS PyTensor) :
    Except PyErr (FS PyTensor) :=
  moveAttrs dev sixNames attrs

/-- `shutil.rmtree(path)` called without `ignore_errors`: deletes the tree
when it exists (afterwards it does not), raises `FileNotFoundError` when the
path does not exist.  The returned `Bool` is whether the directory exists
afterwards. -/
def rmtreeOp (dirExists : Bool) : Except PyErr Bool :=
  if dirExists then .ok false else .error .fileNotFoundError

/-- `TorchMAML.__del__` (lines 180-182): when the model directory was an
auto-created temporary one, remove it with `shutil.rmtree`; otherwise do
nothing.  (The `'_model_dir_is_temp' in dir(self)` guard only protects
against partially-constructed objects and is `True` for every constructed
instance.) -/
def delTorchMAML (modelDirIsTemp dirExists : Bool) : Except PyErr Bool :=
  if modelDirIsTemp then rmtreeOp dirExists else .ok dirExists

/-- A learning-rate configuration of a deepchem `Optimizer`: a plain number
or a `LearningRateSchedule`.

Modelled from the spec: `Optimizer`, `GradientDescent` and
`LearningRateSchedule` live in `deepchem.models.optimizers`, outside the
sources under scrutiny; per the spec's constructor description the task
optimizer is a fixed-step-size `GradientDescent` built from the
`learning_rate` argument (a number, not a schedule). -/
inductive LearnRate where
  | fixedRate (lr : ℚ)
  | scheduleRate (sched : ℕ → ℚ)

/-- `isinstance(opt.learning_rate, LearningRateSchedule)` dispatch: the
schedule when there is one, otherwise `None`. -/
def createSchedule : LearnRate → Option (ℕ → ℚ)
  | .fixedRate _ => none
  | .scheduleRate s => some s

/-- The `_lr_schedule` wiring of `TorchMAML.__init__` (lines 162-178): first
`_lr_schedule` is assigned from the outer optimizer (lines 165-169), then the
task-optimizer block (lines 171-178) assigns it again — `GradientDescent`
built from the numeric `learning_rate` never carries a schedule, so the
`else` branch of lines 177-178 stores `None` unconditionally, discarding the
first assignment. -/
def initLrSchedule (outerRate : LearnRate) (learningRate : ℚ) : Option (ℕ → ℚ) :=
  let firstAssign := createSchedule outerRate
  let taskRate : LearnRate := .fixedRate learningRate
  match createSchedule taskRate with
  | some s => some s
  | none =>
    match firstAssign with
    | _ => none

/-- Concrete state for witnesses. -/
def sWit : MState ℕ ℕ ℕ := ⟨1, 2, 3, 4, none⟩

/-- Concrete payload sequence for witnesses. -/
def psWit : ℕ → CkptData ℕ ℕ ℕ := fun _ => ⟨0, 0, 0, 0⟩

/-- Concrete one-checkpoint directory for witnesses. -/
def fsWit : FS (CkptData ℕ ℕ ℕ) := [(slotName 1, ⟨7, 8, 9, 10⟩)]

/-- The state `restore` produces from `fsWit` and `sWit`. -/
def sWit2 : MState ℕ ℕ ℕ := ⟨7, 8, 9, 10, none⟩

/-- Device name used in concrete instances. -/
def devCuda : List Char := "cuda".toList

/-- Device name used in concrete instances. -/
def devCpu : List Char := "cpu".toList

/-- A learner satisfying the documented `TorchMetaLearner` contract whose
`__dict__` holds the six expected tensors plus one further tensor `w4`, all
on the CPU. -/
def learnerSeven : FS PyTensor :=
  [("w1".toList, ⟨devCpu⟩), ("b1".toList, ⟨devCpu⟩), ("w2".toList, ⟨devCpu⟩),
   ("b2".toList, ⟨devCpu⟩), ("w3".toList, ⟨devCpu⟩), ("b3".toList, ⟨devCpu⟩),
   ("w4".toList, ⟨devCpu⟩)]

/-- A learner satisfying the documented `TorchMetaLearner` contract whose
single parameter tensor is named `w`. -/
def learnerPlain : FS PyTensor := [("w".toList, ⟨devCpu⟩)]

-- ## Lemmas about decimal renderings and names

theorem decReprAux_congr (n : ℕ) : ∀ f1 f2 : ℕ, n < f1 → n < f2 →
    decReprAux f1 n = decReprAux f2 n := by
  induction n using Nat.strong_induction_on with
  | _ n ih =>
    intro f1 f2 h1 h2
    match f1, f2 with
    | 0, _ => omega
    | _, 0 => omega
    | a + 1, b + 1 =>
      simp only [decReprAux]
      by_cases h10 : n < 10
      · simp [h10]
      · have hdiv : n / 10 < n := Nat.div_lt_self (by omega) (by omega)
        simp only [h10, if_false]
        rw [ih (n / 10) hdiv a b (by omega) (by omega)]

theorem decRepr_eq (n : ℕ) :
    decRepr n =
      if n < 10 then [digitChar n] else decRepr (n / 10) ++ [digitChar (n % 10)] := by
  have h : decReprAux (n + 1) n =
      if n < 10 then [digitChar n]
      else decReprAux n (n / 10) ++ [digitChar (n % 10)] := rfl
  show decReprAux (n + 1) n = _
  rw [h]
  by_cases h10 : n < 10
  · simp [h10]
  · rw [if_neg h10, if_neg h10]
    have hdiv : n / 10 < n := Nat.div_lt_self (by omega) (by omega)
    rw [decReprAux_congr (n / 10) n (n / 10 + 1) (by omega) (by omega)]
    rfl

theorem decRepr_ne_nil (n : ℕ) : decRepr n ≠ [] := by
  rw [decRepr_eq]
  by_cases h10 : n < 10 <;> simp [h10]

theorem decRepr_head (n : ℕ) (hn : 1 ≤ n) :
    ∃ c cs, decRepr n = c :: cs ∧ '1' ≤ c ∧ c ≤ '9' := by
  induction n using Nat.strong_induction_on with
  | _ n ih =>
    rw [decRepr_eq]
    by_cases h10 : n < 10
    · refine ⟨digitChar n, [], by simp [h10], ?_⟩
      have hd : ∀ m, m < 10 → 1 ≤ m → '1' ≤ digitChar m ∧ digitChar m ≤ '9' := by decide
      exact hd n h10 hn
    · have hdiv : n / 10 < n := Nat.div_lt_self (by omega) (by omega)
      have hone : 1 ≤ n / 10 := (Nat.one_le_div_iff (by omega)).mpr (by omega)
      obtain ⟨c, cs, hc, h1, h9⟩ := ih (n / 10) hdiv hone
      exact ⟨c, cs ++ [digitChar (n % 10)], by simp [h10, hc], h1, h9⟩

theorem decRepr_digits (n : ℕ) : ∀ c ∈ decRepr n, '0' ≤ c ∧ c ≤ '9' := by
  induction n using Nat.strong_induction_on with
  | _ n ih =>
    rw [decRepr_eq]
    have hd : ∀ m, m < 10 → '0' ≤ digitChar m ∧ digitChar m ≤ '9' := by decide
    by_cases h10 : n < 10
    · simpa [h10] using hd n h10
    · have hdiv : n / 10 < n := Nat.div_lt_self (by omega) (by omega)
      rw [if_neg h10]
      intro c hc
      rcases List.mem_append.mp hc with h | h
      · exact ih (n / 10) hdiv c h
      · simp only [List.mem_singleton] at h
        subst h
        exact hd (n % 10) (Nat.mod_lt _ (by omega))

theorem decRepr_inj : ∀ m n : ℕ, decRepr m = decRepr n → m = n := by
  intro m
  induction m using Nat.strong_induction_on with
  | _ m ih =>
    intro n h
    rw [decRepr_eq m, decRepr_eq n] at h
    have hdig : ∀ a, a < 10 → ∀ b, b < 10 → digitChar a = digitChar b → a = b := by decide
    by_cases hm : m < 10 <;> by_cases hn : n < 10
    · rw [if_pos hm, if_pos hn] at h
      simp only [List.cons.injEq, and_true] at h
      exact hdig m hm n hn h
    · exfalso
      rw [if_pos hm, if_neg hn] at h
      have hlen := congrArg List.length h
      simp only [List.length_cons, List.length_nil, List.length_append] at hlen
      have hzero : (decRepr (n / 10)).length = 0 := by omega
      exact absurd (List.length_eq_zero.mp hzero) (decRepr_ne_nil _)
    · exfalso
      rw [if_neg hm, if_pos hn] at h
      have hlen := congrArg List.length h
      simp only [List.length_cons, List.length_nil, List.length_append] at hlen
      have hzero : (decRepr (m / 10)).length = 0 := by omega
      exact absurd (List.length_eq_zero.mp hzero) (decRepr_ne_nil _)
    · rw [if_neg hm, if_neg hn] at h
      obtain ⟨h1, h2⟩ := List.append_inj' h (by simp)
      have hdivlt : m / 10 < m := Nat.div_lt_self (by omega) (by omega)
      have hdiv := ih (m / 10) hdivlt (n / 10) h1
      simp only [List.cons.injEq, and_true] at h2
      have hmod := hdig (m % 10) (Nat.mod_lt _ (by omega)) (n % 10)
        (Nat.mod_lt _ (by omega)) h2
      have hm10 := Nat.div_add_mod m 10
      have hn10 := Nat.div_add_mod n 10
      omega

theorem slotName_inj {i j : ℕ} (h : slotName i = slotName j) : i = j := by
  unfold slotName at h
  rw [List.append_assoc, List.append_assoc] at h
  have h1 := List.append_cancel_left h
  exact decRepr_inj i j (List.append_cancel_right h1)

theorem slotName_ne_tempName (i : ℕ) : slotName i ≠ tempName := by
  intro h
  have h1 : (slotName i).headD 'x' = 'c' := rfl
  rw [h] at h1
  exact absurd h1 (by decide)

theorem matchingName_slotName (i : ℕ) : matchingName (slotName i) = true := by
  unfold matchingName slotName
  rw [Bool.and_eq_true]
  constructor
  · rw [List.isPrefixOf_iff_prefix, List.append_assoc]
    exact List.prefix_append _ _
  · rw [List.isSuffixOf_iff_suffix]
    exact List.suffix_append _ _

-- ## Lemmas about the lexicographic order and the minimum name

theorem lexLt_append_same (p : List Char) (a b : FName) :
    lexLt (p ++ a) (p ++ b) = lexLt a b := by
  induction p with
  | nil => rfl
  | cons c cs ih => simp [lexLt, lt_irrefl, ih]

theorem lexLt_asymm : ∀ a b : FName, lexLt a b = true → lexLt b a = false := by
  intro a
  induction a with
  | nil =>
    intro b _
    cases b with
    | nil => rfl
    | cons x xs => rfl
  | cons x xs ih =>
    intro b hab
    cases b with
    | nil => exact absurd hab (by simp [lexLt])
    | cons y ys =>
      simp only [lexLt] at hab ⊢
      by_cases hxy : x < y
      · have hyx : ¬ y < x := lt_asymm hxy
        have hne : ¬ y = x := fun h => absurd (h ▸ hxy) (lt_irrefl x)
        simp [hyx, hne]
      · rw [if_neg hxy] at hab
        by_cases heq : x = y
        · rw [if_pos heq] at hab
          subst heq
          simp [lt_irrefl, ih ys hab]
        · rw [if_neg heq] at hab
          exact absurd hab (by simp)

theorem minNameAux_eq (n : FName) :
    ∀ (ns : List FName) (acc : FName),
      (acc = n ∨ lexLt n acc = true) →
      (∀ m ∈ ns, m = n ∨ lexLt n m = true) →
      (acc = n ∨ n ∈ ns) → minNameAux acc ns = n := by
  intro ns
  induction ns with
  | nil =>
    intro acc _ _ hmem
    rcases hmem with h | h
    · exact h
    · cases h
  | cons m ms ih =>
    intro acc hacc hns hmem
    show minNameAux (if lexLt m acc then m else acc) ms = n
    have hm := hns m (List.mem_cons_self m ms)
    have hacc2 : (if lexLt m acc then m else acc) = n ∨
        lexLt n (if lexLt m acc then m else acc) = true := by
      by_cases hlt : lexLt m acc = true
      · simp only [hlt, if_true]
        exact hm
      · simp only [hlt, if_false]
        exact hacc
    have hns2 : ∀ x ∈ ms, x = n ∨ lexLt n x = true := fun x hx =>
      hns x (List.mem_cons_of_mem m hx)
    have hmem2 : (if lexLt m acc then m else acc) = n ∨ n ∈ ms := by
      rcases hmem with ha | hin
      · left
        subst ha
        by_cases hlt : lexLt m acc = true
        · simp only [hlt, if_true]
          rcases hm with h | h
          · exact h
          · exact absurd hlt (by simp [lexLt_asymm acc m h])
        · simp [hlt]
      · rcases List.mem_cons.mp hin with hnm | hin2
        · subst hnm
          left
          by_cases hlt : lexLt n acc = true
          · simp [hlt]
          · rcases hacc with h | h
            · simp [hlt, h]
            · exact absurd h hlt
        · right
          exact hin2
    exact ih _ hacc2 hns2 hmem2

theorem minName_eq (n : FName) (l : List FName) (hmem : n ∈ l)
    (hle : ∀ m ∈ l, m = n ∨ lexLt n m = true) : minName l = some n := by
  cases l with
  | nil => cases hmem
  | cons x xs =>
    show some (minNameAux x xs) = some n
    congr 1
    apply minNameAux_eq n xs x (hle x (List.mem_cons_self x xs))
      (fun m hm => hle m (List.mem_cons_of_mem x hm))
    rcases List.mem_cons.mp hmem with h | h
    · exact Or.inl h.symm
    · exact Or.inr h

theorem lexLt_slotOne (i : ℕ) (hi : 2 ≤ i) :
    lexLt (slotName 1) (slotName i) = true := by
  unfold slotName
  rw [List.append_assoc, List.append_assoc, lexLt_append_same]
  have h1 : decRepr 1 = ['1'] := rfl
  obtain ⟨c, cs, hc, hc1, hc9⟩ := decRepr_head i (by omega)
  rw [h1, hc]
  by_cases hlt : '1' < c
  · simp [lexLt, hlt]
  · have hceq : c = '1' := le_antisymm (not_lt.mp hlt) hc1
    subst hceq
    have hne : cs ≠ [] := by
      intro hnil
      subst hnil
      exact absurd (decRepr_inj i 1 (by rw [hc, h1])) (by omega)
    obtain ⟨d, ds, hd⟩ := List.exists_cons_of_ne_nil hne
    subst hd
    have hd0 : '0' ≤ d := by
      refine (decRepr_digits i d ?_).1
      rw [hc]
      exact List.mem_cons_of_mem _ (List.mem_cons_self d ds)
    have hdot : '.' < d := lt_of_lt_of_le (by decide : ('.' : Char) < '0') hd0
    have hstep : ".pt".toList = '.' :: ['p', 't'] := rfl
    simp [lexLt, lt_irrefl, hstep, hdot]

-- ## Lemmas about the association-list file system

theorem lookupF_cons {α : Type} (n : FName) (e : FName × α) (fs : FS α) :
    lookupF n (e :: fs) = if e.1 = n then some e.2 else lookupF n fs := rfl

theorem lookupF_append_none {α : Type} (n : FName) (fs1 fs2 : FS α)
    (h : lookupF n fs1 = none) : lookupF n (fs1 ++ fs2) = lookupF n fs2 := by
  induction fs1 with
  | nil => rfl
  | cons e es ih =>
    rw [lookupF_cons] at h
    by_cases he : e.1 = n
    · rw [if_pos he] at h
      cases h
    · rw [if_neg he] at h
      show lookupF n (e :: (es ++ fs2)) = _
      rw [lookupF_cons, if_neg he]
      exact ih h

theorem lookupF_append_some {α : Type} (n : FName) (fs1 fs2 : FS α) (a : α)
    (h : lookupF n fs1 = some a) : lookupF n (fs1 ++ fs2) = some a := by
  induction fs1 with
  | nil => cases h
  | cons e es ih =>
    rw [lookupF_cons] at h
    show lookupF n (e :: (es ++ fs2)) = _
    rw [lookupF_cons]
    by_cases he : e.1 = n
    · rw [if_pos he] at h ⊢
      exact h
    · rw [if_neg he] at h ⊢
      exact ih h

theorem existsF_false_iff {α : Type} (n : FName) (fs : FS α) :
    existsF n fs = false ↔ lookupF n fs = none := by
  unfold existsF
  cases lookupF n fs <;> simp

theorem removeF_append {α : Type} (n : FName) (fs1 fs2 : FS α) :
    removeF n (fs1 ++ fs2) = removeF n fs1 ++ removeF n fs2 := by
  unfold removeF
  exact List.filter_append _ _

theorem removeF_id_of_none {α : Type} (n : FName) (fs : FS α)
    (h : lookupF n fs = none) : removeF n fs = fs := by
  induction fs with
  | nil => rfl
  | cons e es ih =>
    rw [lookupF_cons] at h
    by_cases he : e.1 = n
    · rw [if_pos he] at h
      cases h
    · rw [if_neg he] at h
      show List.filter _ (e :: es) = _
      rw [List.filter_cons, if_pos (by simp [he])]
      rw [show List.filter (fun e => !decide (e.1 = n)) es = removeF n es from rfl, ih h]

theorem removeF_singleton_self {α : Type} (n : FName) (a : α) :
    removeF n [(n, a)] = [] := by
  show List.filter _ [(n, a)] = []
  rw [List.filter_cons, if_neg (by simp)]
  rfl

-- ## Lemmas about the canonical directory shape

theorem canonList_zero {α : Type} (ps : ℕ → α) : canonList ps 0 = [] := rfl

theorem canonShift_zero {α : Type} (ps : ℕ → α) : canonShift ps 0 = [] := rfl

theorem canonList_succ {α : Type} (ps : ℕ → α) (q : ℕ) :
    canonList ps (q + 1) = canonList ps q ++ [(slotName (q + 1), ps q)] := by
  unfold canonList
  rw [List.range_succ, List.map_append]
  rfl

theorem canonShift_succ {α : Type} (ps : ℕ → α) (q : ℕ) :
    canonShift ps (q + 1) = canonShift ps q ++ [(slotName (q + 2), ps q)] := by
  unfold canonShift
  rw [List.range_succ, List.map_append]
  rfl

theorem lookupF_canonList_slot {α : Type} (ps : ℕ → α) (q j : ℕ) :
    lookupF (slotName j) (canonList ps q) =
      if 1 ≤ j ∧ j ≤ q then some (ps (j - 1)) else none := by
  induction q with
  | zero =>
    rw [canonList_zero, if_neg (by omega)]
    rfl
  | succ q ih =>
    rw [canonList_succ]
    by_cases hj : 1 ≤ j ∧ j ≤ q
    · rw [lookupF_append_some _ _ _ _ (by rw [ih, if_pos hj])]
      rw [if_pos ⟨hj.1, by omega⟩]
    · rw [lookupF_append_none _ _ _ (by rw [ih, if_neg hj])]
      by_cases hj2 : j = q + 1
      · subst hj2
        rw [lookupF_cons, if_pos rfl, if_pos ⟨by omega, le_refl _⟩]
        simp
      · have hne : slotName (q + 1) ≠ slotName j := fun h => hj2 (slotName_inj h).symm
        rw [lookupF_cons, if_neg hne, if_neg (by omega)]
        rfl

theorem lookupF_canonList_temp {α : Type} (ps : ℕ → α) (q : ℕ) :
    lookupF tempName (canonList ps q) = none := by
  induction q with
  | zero => rfl
  | succ q ih =>
    rw [canonList_succ, lookupF_append_none _ _ _ ih, lookupF_cons,
      if_neg (slotName_ne_tempName (q + 1))]
    rfl

-- ## The rotation: effect of one `save_checkpoint` on a canonical directory

theorem lookupF_config {α : Type} (j : ℕ) (F R : FS α) (p : α) (ps : ℕ → α)
    (q : ℕ) (hF : lookupF (slotName j) F = none)
    (hR : lookupF (slotName j) R = none) :
    lookupF (slotName j) (F ++ [(tempName, p)] ++ canonList ps q ++ R) =
      if 1 ≤ j ∧ j ≤ q then some (ps (j - 1)) else none := by
  have ht : lookupF (slotName j) (F ++ [(tempName, p)]) = none := by
    rw [lookupF_append_none _ _ _ hF, lookupF_cons,
      if_neg fun h => slotName_ne_tempName j h.symm]
    rfl
  by_cases hq : 1 ≤ j ∧ j ≤ q
  · rw [lookupF_append_some]
    · rw [if_pos hq]
    · rw [lookupF_append_none _ _ _ ht, lookupF_canonList_slot, if_pos hq]
  · rw [lookupF_append_none, hR, if_neg hq]
    rw [lookupF_append_none _ _ _ ht, lookupF_canonList_slot, if_neg hq]

theorem shiftFrom_canon {α : Type} :
    ∀ (k q : ℕ) (F R : FS α) (p : α) (ps : ℕ → α),
      q ≤ k →
      (∀ j, 1 ≤ j → j ≤ k + 1 →
        lookupF (slotName j) F = none ∧ lookupF (slotName j) R = none) →
      shiftFrom k (F ++ [(tempName, p)] ++ canonList ps q ++ R) =
        canonShift ps q ++ F ++ [(tempName, p)] ++ R := by
  intro k
  induction k with
  | zero =>
    intro q F R p ps hq _
    have hq0 : q = 0 := Nat.le_zero.mp hq
    subst hq0
    rw [canonList_zero, canonShift_zero]
    show F ++ [(tempName, p)] ++ [] ++ R = [] ++ F ++ [(tempName, p)] ++ R
    simp
  | succ k ih =>
    intro q F R p ps hq hFR
    show shiftFrom k
      (if existsF (slotName (k + 1))
          (F ++ [(tempName, p)] ++ canonList ps q ++ R) = true then _ else _) = _
    by_cases hqk : q ≤ k
    · have hnone : lookupF (slotName (k + 1))
          (F ++ [(tempName, p)] ++ canonList ps q ++ R) = none := by
        rw [lookupF_config _ _ _ _ _ _ (hFR (k + 1) (by omega) (by omega)).1
          (hFR (k + 1) (by omega) (by omega)).2, if_neg (by omega)]
      have hex : existsF (slotName (k + 1))
          (F ++ [(tempName, p)] ++ canonList ps q ++ R) = false :=
        (existsF_false_iff _ _).mpr hnone
      rw [hex, if_neg (by decide)]
      exact ih q F R p ps hqk fun j h1 h2 => hFR j h1 (by omega)
    · have hq1 : q = k + 1 := by omega
      subst hq1
      have hFk1 := hFR (k + 1) (by omega) (by omega)
      have hFk2 := hFR (k + 2) (by omega) (by omega)
      have hlook : lookupF (slotName (k + 1))
          (F ++ [(tempName, p)] ++ canonList ps (k + 1) ++ R) = some (ps k) := by
        rw [lookupF_config _ _ _ _ _ _ hFk1.1 hFk1.2, if_pos ⟨by omega, le_refl _⟩]
        simp
      have hex : existsF (slotName (k + 1))
          (F ++ [(tempName, p)] ++ canonList ps (k + 1) ++ R) = true := by
        unfold existsF
        rw [hlook]
        rfl
      rw [hex, if_pos rfl]
      have hrm : removeF (slotName (k + 1))
          (F ++ [(tempName, p)] ++ canonList ps (k + 1) ++ R) =
          F ++ [(tempName, p)] ++ canonList ps k ++ R := by
        rw [removeF_append, removeF_append, removeF_append]
        rw [removeF_id_of_none _ _ hFk1.1, removeF_id_of_none _ _ hFk1.2]
        rw [removeF_id_of_none _ _ (by
          rw [lookupF_cons, if_neg fun h => slotName_ne_tempName (k + 1) h.symm]
          rfl)]
        rw [canonList_succ, removeF_append,
          removeF_id_of_none _ _ (by rw [lookupF_canonList_slot, if_neg (by omega)]),
          removeF_singleton_self, List.append_nil]
      have hrename : renameF (slotName (k + 1)) (slotName (k + 2))
          (F ++ [(tempName, p)] ++ canonList ps (k + 1) ++ R) =
          (slotName (k + 2), ps k) :: (F ++ [(tempName, p)] ++ canonList ps k ++ R) := by
        unfold renameF
        rw [hlook]
        show writeF _ _ _ = _
        unfold writeF
        rw [hrm]
        rw [removeF_id_of_none _ _ (by
          rw [lookupF_config _ _ _ _ _ _ hFk2.1 hFk2.2, if_neg (by omega)])]
      rw [hrename]
      have hcons : (slotName (k + 2), ps k) ::
          (F ++ [(tempName, p)] ++ canonList ps k ++ R) =
          ((slotName (k + 2), ps k) :: F) ++ [(tempName, p)] ++ canonList ps k ++ R := by
        simp
      rw [hcons]
      rw [ih k ((slotName (k + 2), ps k) :: F) R p ps (le_refl k) (fun j h1 h2 => by
        constructor
        · rw [lookupF_cons,
            if_neg (fun h => absurd (slotName_inj h) (by omega))]
          exact (hFR j h1 (by omega)).1
        · exact (hFR j h1 (by omega)).2)]
      rw [canonShift_succ]
      simp

-- ## One save on a canonical directory

theorem lookupF_canonShift_temp {α : Type} (ps : ℕ → α) (q : ℕ) :
    lookupF tempName (canonShift ps q) = none := by
  induction q with
  | zero => rfl
  | succ q ih =>
    rw [canonShift_succ, lookupF_append_none _ _ _ ih, lookupF_cons,
      if_neg (slotName_ne_tempName (q + 2))]
    rfl

theorem lookupF_canonShift_one {α : Type} (ps : ℕ → α) (q : ℕ) :
    lookupF (slotName 1) (canonShift ps q) = none := by
  induction q with
  | zero => rfl
  | succ q ih =>
    rw [canonShift_succ, lookupF_append_none _ _ _ ih, lookupF_cons,
      if_neg (fun h => absurd (slotName_inj h) (by omega))]
    rfl

theorem canonList_consSeq {α : Type} (p : α) (ps : ℕ → α) (q : ℕ) :
    canonList (consSeq p ps) (q + 1) = (slotName 1, p) :: canonShift ps q := by
  unfold canonList canonShift
  rw [List.range_succ_eq_map, List.map_cons, List.map_map]
  rfl

theorem saveCheckpoint_canon {α : Type} (N q : ℕ) (p : α) (ps : ℕ → α)
    (hN : 1 ≤ N) (hq : q ≤ N) :
    saveCheckpoint N p (canonList ps q) =
      canonList (consSeq p ps) (min (q + 1) N) := by
  obtain ⟨n, rfl⟩ : ∃ n, N = n + 1 := ⟨N - 1, by omega⟩
  have hw : writeF tempName p (canonList ps q) = (tempName, p) :: canonList ps q := by
    unfold writeF
    rw [removeF_id_of_none _ _ (lookupF_canonList_temp ps q)]
  simp only [saveCheckpoint, Nat.add_sub_cancel]
  rw [hw]
  have hshift : ∀ q' : ℕ, q' ≤ n →
      shiftFrom n ((tempName, p) :: canonList ps q') =
        canonShift ps q' ++ [(tempName, p)] := by
    intro q' hq'
    have h := shiftFrom_canon n q' [] [] p ps hq' (fun j h1 h2 => ⟨rfl, rfl⟩)
    simpa using h
  have hfinal : ∀ q' : ℕ,
      renameF tempName (slotName 1) (canonShift ps q' ++ [(tempName, p)]) =
        canonList (consSeq p ps) (q' + 1) := by
    intro q'
    unfold renameF
    have hlook : lookupF tempName (canonShift ps q' ++ [(tempName, p)]) = some p := by
      rw [lookupF_append_none _ _ _ (lookupF_canonShift_temp ps q'), lookupF_cons,
        if_pos rfl]
    rw [hlook]
    show writeF _ _ _ = _
    unfold writeF
    rw [removeF_append, removeF_id_of_none _ _ (lookupF_canonShift_temp ps q'),
      removeF_singleton_self, List.append_nil]
    rw [removeF_id_of_none _ _ (lookupF_canonShift_one ps q'), canonList_consSeq]
  by_cases hqN : q = n + 1
  · subst hqN
    have hex : existsF (slotName (n + 1)) ((tempName, p) :: canonList ps (n + 1)) = true := by
      unfold existsF
      rw [lookupF_cons, if_neg (fun h => slotName_ne_tempName (n + 1) h.symm),
        lookupF_canonList_slot, if_pos ⟨by omega, le_refl _⟩]
      rfl
    rw [hex, if_pos rfl]
    have hrm : removeF (slotName (n + 1)) ((tempName, p) :: canonList ps (n + 1)) =
        (tempName, p) :: canonList ps n := by
      show List.filter _ ((tempName, p) :: canonList ps (n + 1)) = _
      have hne : ¬ (tempName = slotName (n + 1)) :=
        fun h => slotName_ne_tempName (n + 1) h.symm
      rw [List.filter_cons, if_pos (by simp [hne])]
      rw [show List.filter (fun e => !decide (e.1 = slotName (n + 1)))
            (canonList ps (n + 1)) =
          removeF (slotName (n + 1)) (canonList ps (n + 1)) from rfl]
      rw [canonList_succ, removeF_append,
        removeF_id_of_none _ _ (by rw [lookupF_canonList_slot, if_neg (by omega)]),
        removeF_singleton_self, List.append_nil]
    rw [hrm, hshift n (le_refl n), hfinal n]
    have hmin : min (n + 1 + 1) (n + 1) = n + 1 := by omega
    rw [hmin]
  · have hqn : q ≤ n := by omega
    have hex : existsF (slotName (n + 1)) ((tempName, p) :: canonList ps q) = false := by
      rw [existsF_false_iff, lookupF_cons,
        if_neg (fun h => slotName_ne_tempName (n + 1) h.symm),
        lookupF_canonList_slot, if_neg (by omega)]
    rw [hex, if_neg (by decide), hshift q hqn, hfinal q]
    have hmin : min (q + 1) (n + 1) = q + 1 := by omega
    rw [hmin]

-- ## Iterated saves from the empty directory

theorem saveIter_canon {α : Type} (N : ℕ) (P : ℕ → α) (hN : 1 ≤ N) :
    ∀ m : ℕ, saveIter N P m [] = canonList (fun i => P (m - 1 - i)) (min m N) := by
  intro m
  induction m with
  | zero =>
    have h0 : min 0 N = 0 := by omega
    rw [h0]
    rfl
  | succ m ih =>
    show saveCheckpoint N (P m) (saveIter N P m []) = _
    rw [ih, saveCheckpoint_canon N (min m N) (P m) _ hN (min_le_right m N)]
    have harg : consSeq (P m) (fun i => P (m - 1 - i)) = fun i => P (m + 1 - 1 - i) := by
      funext i
      cases i with
      | zero => exact congrArg P (by omega)
      | succ i => exact congrArg P (by omega)
    have hmin : min (min m N + 1) N = min (m + 1) N := by omega
    rw [harg, hmin]

theorem getCheckpoints_canonList {α : Type} (ps : ℕ → α) (q : ℕ) :
    getCheckpoints (canonList ps q) =
      (List.range q).map fun i => slotName (i + 1) := by
  unfold getCheckpoints canonList
  rw [List.map_map]
  rw [show (Prod.fst ∘ fun i => (slotName (i + 1), ps i)) =
    (fun i => slotName (i + 1)) from rfl]
  refine List.filter_eq_self.mpr ?_
  intro a ha
  obtain ⟨i, _, rfl⟩ := List.mem_map.mp ha
  exact matchingName_slotName (i + 1)

-- ## Restore picks slot 1 on a canonical directory

theorem minName_slotNames (q : ℕ) (hq : 1 ≤ q) :
    minName ((List.range q).map fun i => slotName (i + 1)) = some (slotName 1) := by
  apply minName_eq
  · exact List.mem_map.mpr ⟨0, List.mem_range.mpr (by omega), rfl⟩
  · intro m hm
    obtain ⟨i, _, rfl⟩ := List.mem_map.mp hm
    by_cases hi : i = 0
    · subst hi
      exact Or.inl rfl
    · exact Or.inr (lexLt_slotOne (i + 1) (by omega))

theorem restoreSt_canon {M O T : Type} (ps : ℕ → CkptData M O T) (q : ℕ)
    (hq : 1 ≤ q) (s : MState M O T) :
    restoreSt (canonList ps q) s =
      .ok ⟨(ps 0).modelState, (ps 0).optState, (ps 0).taskOptState,
        (ps 0).globalStep, s.lrSched⟩ := by
  have hl : lookupF (slotName 1) (canonList ps q) = some (ps 0) := by
    rw [lookupF_canonList_slot, if_pos ⟨le_refl 1, hq⟩]
  simp only [restoreSt, getCheckpoints_canonList, minName_slotNames q hq, hl]

-- ## Lookup through write and remove (for the device-move model)

theorem lookupF_removeF {α : Type} (n m : FName) (fs : FS α) :
    lookupF m (removeF n fs) = if n = m then none else lookupF m fs := by
  induction fs with
  | nil => by_cases h : n = m <;> simp [h, lookupF, removeF]
  | cons e es ih =>
    show lookupF m (List.filter _ (e :: es)) = _
    rw [List.filter_cons]
    by_cases he : e.1 = n
    · rw [if_neg (by simp [he])]
      rw [show List.filter (fun e => !decide (e.1 = n)) es = removeF n es from rfl, ih]
      by_cases hnm : n = m
      · rw [if_pos hnm, if_pos hnm]
      · rw [if_neg hnm, if_neg hnm, lookupF_cons, if_neg (by rw [he]; exact hnm)]
    · rw [if_pos (by simp [he])]
      rw [lookupF_cons, lookupF_cons]
      by_cases hem : e.1 = m
      · rw [if_pos hem, if_neg (by rw [← hem]; exact fun hh => he hh.symm), if_pos hem]
      · rw [if_neg hem, if_neg hem,
          show List.filter (fun e => !decide (e.1 = n)) es = removeF n es from rfl, ih]

theorem lookupF_writeF {α : Type} (n m : FName) (a : α) (fs : FS α) :
    lookupF m (writeF n a fs) = if n = m then some a else lookupF m fs := by
  unfold writeF
  rw [lookupF_cons, lookupF_removeF]
  by_cases h : n = m
  · rw [if_pos h, if_pos h]
  · rw [if_neg h, if_neg h, if_neg h]

-- ## The device-move sequence

theorem moveAttrs_spec (dev : List Char) :
    ∀ (ns : List (List Char)) (attrs : FS PyTensor),
      (∀ n ∈ ns, (lookupF n attrs).isSome = true) →
      ∀ n, (moveAttrs dev ns attrs).toOption.map (fun a2 => lookupF n a2) =
        some (if n ∈ ns then some ⟨dev⟩ else lookupF n attrs) := by
  intro ns
  induction ns with
  | nil =>
    intro attrs _ n
    rw [if_neg (List.not_mem_nil n)]
    rfl
  | cons m ms ih =>
    intro attrs h n
    obtain ⟨t, ht⟩ := Option.isSome_iff_exists.mp (h m (List.mem_cons_self m ms))
    show (match moveAttr dev m attrs with
      | .error e => Except.error e
      | .ok a2 => moveAttrs dev ms a2).toOption.map _ = _
    unfold moveAttr
    rw [ht]
    have hnext : ∀ x ∈ ms, (lookupF x (writeF m ⟨dev⟩ attrs)).isSome = true := by
      intro x hx
      rw [lookupF_writeF]
      by_cases hmx : m = x
      · rw [if_pos hmx]
        rfl
      · rw [if_neg hmx]
        exact h x (List.mem_cons_of_mem m hx)
    have hres := ih (writeF m ⟨dev⟩ attrs) hnext n
    rw [hres]
    by_cases hms : n ∈ ms
    · rw [if_pos hms, if_pos (List.mem_cons_of_mem m hms)]
    · rw [if_neg hms, lookupF_writeF]
      by_cases hmn : m = n
      · rw [if_pos hmn, if_pos (by rw [hmn]; exact List.mem_cons_self n ms)]
      · rw [if_neg hmn, if_neg (by
          intro hc
          rcases List.mem_cons.mp hc with hc1 | hc2
          · exact hmn hc1.symm
          · exact hms hc2)]

-- ## Restore never touches the learning-rate schedule

theorem restoreSt_lrSched {M O T : Type} (fs : FS (CkptData M O T))
    (s s2 : MState M O T) (h : restoreSt fs s = .ok s2) :
    s2.lrSched = s.lrSched := by
  unfold restoreSt at h
  split at h
  · cases h
  · split at h
    · cases h
      rfl
    · cases h

-- ## The claims

/-- Claim C1 — the code contradicts it (code bug).  The claim: for every
configuration with `optimization_steps ≥ 1`, the meta-gradient returned by
`_compute_meta_loss` is the derivative of the meta-loss with respect to the
original parameters through the entire inner-loop update arithmetic.  On the
concrete learner `loss(p) = p²` with one scalar parameter `θ = 1` and
`learning_rate = 1/10`: with `optimization_steps = 2` the call raises
`AttributeError` (the adapted tensors are non-leaf, their `.grad` is `None`
and `.clone()` fails), so no meta-gradient is returned at all; with
`optimization_steps = 1` the returned meta-gradient is `18/5` — the inner
loss gradient `2` left in the never-zeroed `.grad` buffer plus the
first-order term `8/5` through the detached update — whereas the true
end-to-end derivative of `θ ↦ (θ - (1/10)·(2θ))²` at `θ = 1` is `32/25`
(the last two conjuncts establish that derivative with the inner-loss
derivative `2θ` computed by calculus, not assumed), and `18/5 ≠ 32/25`. -/
theorem claim1_meta_gradient_not_end_to_end :
    computeMetaLoss quadLoss quadLoss (1/10) 2 [leafT 0 1] [none] =
      .error .attributeError ∧
    computeMetaLoss quadLoss quadLoss (1/10) 1 [leafT 0 1] [none] =
      .ok ⟨16/25, [18/5], [some (18/5)]⟩ ∧
    (∀ θ : ℝ, HasDerivAt (fun p : ℝ => p ^ 2) (2 * θ) θ) ∧
    HasDerivAt (fun θ : ℝ => (θ - (1/10) * (2 * θ)) ^ 2) (32/25) 1 ∧
    ((18 : ℝ)/5 ≠ 32/25) := by
  refine ⟨?_, ?_, ?_, ?_, by norm_num⟩
  · simp [computeMetaLoss, innerLoopM, quadLoss, leafT, zeroT, rtMul, subDetached,
      backward, tensorGrad, gradCloneList]
  · simp [computeMetaLoss, innerLoopM, quadLoss, leafT, zeroT, rtMul, subDetached,
      backward, tensorGrad, gradCloneList]
    norm_num
  · intro θ
    simpa using (hasDerivAt_id θ).pow 2
  · have h1 : HasDerivAt (fun θ : ℝ => θ - (1/10) * (2 * θ)) (1 - (1/10) * 2) 1 := by
      have h2 := ((hasDerivAt_id (1 : ℝ)).const_mul (2 : ℝ)).const_mul ((1 : ℝ)/10)
      simpa using (hasDerivAt_id (1 : ℝ)).sub h2
    have h3 := h1.pow 2
    convert h3 using 1
    norm_num

/-- Claim C2 — the code contradicts it (code bug).  The claim: the gradient
used by the outer-optimizer step equals the element-wise sum of the
`meta_batch_size` per-task meta-gradients returned by `_compute_meta_loss`,
and nothing else contributes.  With two tasks, both `loss(p) = p²`, `θ = 1`,
`learning_rate = 1/10`, one inner step: the optimizer step consumes the
`.grad` buffer `162/25` (inner-loss gradients and the first task's gradients
accumulate into it, since `zero_grad` runs only once per outer iteration),
the two returned per-task meta-gradients are `18/5` and `162/25`, whose sum
`252/25` is held by the never-used `summed_gradients` variable, and
`162/25 ≠ 252/25`. -/
theorem claim2_outer_step_gradient :
    fitIteration (fun _ => ⟨quadLoss, quadLoss⟩) (1/10) 1 2 [1] =
      .ok ⟨[some (162/25)], [[18/5], [162/25]], [252/25]⟩ ∧
    ((18 : ℚ)/5 + 162/25 = 252/25) ∧
    ((162 : ℚ)/25 ≠ 252/25) := by
  refine ⟨?_, by norm_num, by norm_num⟩
  simp [fitIteration, metaBatchLoop, computeMetaLoss, innerLoopM, quadLoss, leafT,
    zeroT, rtMul, subDetached, backward, tensorGrad, gradCloneList]
  norm_num

/-- Claim C3 — the code contradicts it (code bug).  The claim: a parameter
tensor whose gradient is absent in an inner step is passed through unchanged
and no error is raised.  On a fresh learner with two scalar parameters whose
loss `p₀²` never uses the second one, the second `.grad` buffer is `None`
and `gradients = [i.grad.clone() for i in updated_variables]` (line 243)
raises `AttributeError` before the `v if g is None` guard of line 245 can
run. -/
theorem claim3_missing_gradient_raises :
    computeMetaLoss quadLoss quadLoss (1/10) 1 [leafT 0 1, leafT 1 1] [none, none] =
      .error .attributeError := by
  simp [computeMetaLoss, innerLoopM, quadLoss, leafT, zeroT, rtMul, subDetached,
    backward, tensorGrad, gradCloneList]

/-- Claim C4 — confirmed.  After `max_checkpoints_to_keep + k` saves on an
initially empty directory (`N ≥ 1`, `k ≥ 1`), exactly `N` checkpoint files
exist, slot 1 (`checkpoint1.pt`) holds the payload of the most recent save;
and each save on a reachable directory performs the rotation: the new
payload lands in slot 1 and every occupied slot `j ≤ N - 1` moves to slot
`j + 1`. -/
theorem claim4_rotation_ring {α : Type} (N k : ℕ) (P : ℕ → α)
    (hN : 1 ≤ N) (hk : 1 ≤ k) :
    (getCheckpoints (saveIter N P (N + k) [])).length = N ∧
    lookupF (slotName 1) (saveIter N P (N + k) []) = some (P (N + k - 1)) ∧
    (∀ (p : α) (ps : ℕ → α) (q : ℕ), q ≤ N →
      lookupF (slotName 1) (saveCheckpoint N p (canonList ps q)) = some p ∧
      ∀ j, 1 ≤ j → j + 1 ≤ N →
        lookupF (slotName (j + 1)) (saveCheckpoint N p (canonList ps q)) =
          lookupF (slotName j) (canonList ps q)) := by
  refine ⟨?_, ?_, ?_⟩
  · rw [saveIter_canon N P hN (N + k), getCheckpoints_canonList,
      List.length_map, List.length_range]
    omega
  · rw [saveIter_canon N P hN (N + k), lookupF_canonList_slot,
      if_pos ⟨le_refl 1, by omega⟩]
    rfl
  · intro p ps q hq
    constructor
    · rw [saveCheckpoint_canon N q p ps hN hq, lookupF_canonList_slot,
        if_pos ⟨le_refl 1, by omega⟩]
      rfl
    · intro j hj hjN
      rw [saveCheckpoint_canon N q p ps hN hq, lookupF_canonList_slot,
        lookupF_canonList_slot]
      by_cases hjq : j ≤ q
      · rw [if_pos ⟨by omega, by omega⟩, if_pos ⟨hj, hjq⟩]
        obtain ⟨j2, rfl⟩ : ∃ j2, j = j2 + 1 := ⟨j - 1, by omega⟩
        rfl
      · rw [if_neg (by omega), if_neg (by omega)]

/-- Witness for C4 at `N = 2`, `k = 1`. -/
theorem claim4_witness :
    1 ≤ 2 ∧ 1 ≤ 1 ∧
    (getCheckpoints (saveIter 2 (fun t => t) (2 + 1) [])).length = 2 ∧
    lookupF (slotName 1) (saveIter 2 (fun t => t) (2 + 1) []) = some 2 := by
  have h := claim4_rotation_ring 2 1 (fun t => t) (by decide) (by decide)
  exact ⟨by decide, by decide, h.1, by simpa using h.2.1⟩

/-- Claim C5 — confirmed.  On every reachable directory (slots `1..q` of a
rotation ring, `q ≤ N`) and every state, `save_checkpoint` followed by
`restore` reproduces the saved state exactly: the learner's `__dict__`, both
optimizers' states and `_global_step` (and the untouched `_lr_schedule`), so
restore-after-save is the identity on the checkpointed state. -/
theorem claim5_save_restore_roundtrip {M O T : Type} (N q : ℕ)
    (ps : ℕ → CkptData M O T) (s : MState M O T) (hN : 1 ≤ N) (hq : q ≤ N) :
    restoreSt (saveCheckpoint N (ckptDataOf s) (canonList ps q)) s = .ok s := by
  rw [saveCheckpoint_canon N q (ckptDataOf s) ps hN hq,
    restoreSt_canon _ _ (by omega) s]
  rfl

/-- Witness for C5 at `N = 1` on the empty directory. -/
theorem claim5_witness :
    1 ≤ 1 ∧ 0 ≤ 1 ∧
    restoreSt (saveCheckpoint 1 (ckptDataOf sWit) (canonList psWit 0)) sWit =
      .ok sWit :=
  ⟨by decide, by decide,
    claim5_save_restore_roundtrip 1 0 psWit sWit (by decide) (by decide)⟩

/-- Claim C6 — confirmed.  When no file of the directory matches the
checkpoint pattern, `restore` raises `ValueError('No checkpoint found')`;
the raise happens before any assignment, so the state is untouched (the
embedding returns no new state on the error path). -/
theorem claim6_restore_empty {M O T : Type} (fs : FS (CkptData M O T))
    (s : MState M O T) (h : getCheckpoints fs = []) :
    restoreSt fs s = .error "No checkpoint found".toList := by
  unfold restoreSt
  rw [h]
  rfl

/-- Witness for C6 on the empty directory. -/
theorem claim6_witness :
    getCheckpoints ([] : FS (CkptData ℕ ℕ ℕ)) = [] ∧
    restoreSt ([] : FS (CkptData ℕ ℕ ℕ)) sWit =
      .error "No checkpoint found".toList :=
  ⟨rfl, claim6_restore_empty [] sWit rfl⟩

/-- Claim C7 — the code contradicts it (code bug).  The claim: the global
step stored in successive checkpoints of a `fit` run strictly increases (or
at least increases with completed outer iterations).  `fit` never assigns
`_global_step`, so a two-iteration run that checkpoints on every iteration
records `[0, 0]`: the recorded steps are constant, not increasing. -/
theorem claim7_global_step_constant :
    fitRun (fun _ _ => ⟨quadLoss, quadLoss⟩) (fun _ vals => vals) (1/10) 1 1 2
      (fun _ => true) 0 [1] = .ok ([1], [0, 0]) ∧
    ¬ List.Pairwise (fun a b : ℕ => a < b) [0, 0] := by
  constructor
  · simp [fitRun, fitLoop, fitIteration, metaBatchLoop, computeMetaLoss, innerLoopM,
      quadLoss, leafT, zeroT, rtMul, subDetached, backward, tensorGrad, gradCloneList]
  · decide

/-- Counterexample for C8.  The claim: on construction every tensor owned by
a contract-satisfying task model is moved to the selected device.  A learner
owning the six expected tensors plus `w4` keeps `w4` on the CPU, and a
contract-satisfying learner whose only tensor is named `w` makes
construction raise `AttributeError` at `self.learner.w1`. -/
theorem claim8_counterexample :
    (initDeviceMove devCuda learnerSeven).toOption.map
        (fun a2 => lookupF "w4".toList a2) = some (some ⟨devCpu⟩) ∧
    devCpu ≠ devCuda ∧
    initDeviceMove devCuda learnerPlain = .error .attributeError := by
  refine ⟨rfl, by decide, rfl⟩

/-- Claim C8 as amended: construction moves exactly the six attributes
`w1, b1, w2, b2, w3, b3` to the selected device; any other attribute is left
unchanged (and a learner missing one of the six raises `AttributeError`, as
the counterexample shows). -/
theorem claim8_moves_exactly_six (dev : List Char) (attrs : FS PyTensor)
    (h : ∀ n ∈ sixNames, (lookupF n attrs).isSome = true) (n : List Char) :
    (initDeviceMove dev attrs).toOption.map (fun a2 => lookupF n a2) =
      some (if n ∈ sixNames then some ⟨dev⟩ else lookupF n attrs) :=
  moveAttrs_spec dev sixNames attrs h n

/-- Witness for the amended C8 on the seven-tensor learner. -/
theorem claim8_witness :
    (∀ n ∈ sixNames, (lookupF n learnerSeven).isSome = true) ∧
    (initDeviceMove devCuda learnerSeven).toOption.map
        (fun a2 => lookupF "w1".toList a2) = some (some ⟨devCuda⟩) ∧
    (initDeviceMove devCuda learnerSeven).toOption.map
        (fun a2 => lookupF "w4".toList a2) = some (some ⟨devCpu⟩) := by
  refine ⟨by decide, ?_, ?_⟩
  · rw [claim8_moves_exactly_six devCuda learnerSeven (by decide) ("w1".toList)]
    decide
  · rw [claim8_moves_exactly_six devCuda learnerSeven (by decide) ("w4".toList)]
    decide

/-- Counterexample for C9.  The claim: teardown cleanup never raises when
the temporary directory is already gone (a no-op).  `__del__` calls
`shutil.rmtree` without `ignore_errors` and without an existence check, so
on an already-removed directory the cleanup raises `FileNotFoundError`
rather than doing nothing. -/
theorem claim9_counterexample :
    delTorchMAML true false = .error .fileNotFoundError ∧
    delTorchMAML true false ≠ .ok false :=
  ⟨rfl, fun h => Except.noConfusion h⟩

/-- Claim C9 as amended: teardown deletes an auto-created temporary
directory when it exists and leaves a non-temporary directory alone, but
when the temporary directory is already gone the `rmtree` call raises
`FileNotFoundError` (the interpreter then suppresses exceptions escaping
`__del__`; the method body itself is not a no-op). -/
theorem claim9_teardown :
    delTorchMAML true true = .ok false ∧
    delTorchMAML true false = .error .fileNotFoundError ∧
    delTorchMAML false true = .ok true ∧
    delTorchMAML false false = .ok false :=
  ⟨rfl, rfl, rfl, rfl⟩

/-- Claim C10 — confirmed.  After construction `_lr_schedule` is `None`
regardless of the outer optimizer's learning-rate configuration, because the
task-optimizer block overwrites the field and the fixed-step-size
`GradientDescent` built from the numeric `learning_rate` never carries a
schedule; and `restore` (the only operation that writes any of the saved
state back) leaves the field unchanged, so no operation ever installs the
outer optimizer's schedule. -/
theorem claim10_lr_schedule_none :
    (∀ (outerRate : LearnRate) (lr : ℚ), initLrSchedule outerRate lr = none) ∧
    (∀ (M O T : Type) (fs : FS (CkptData M O T)) (s s2 : MState M O T),
      restoreSt fs s = .ok s2 → s2.lrSched = s.lrSched) := by
  constructor
  · intro outerRate lr
    rfl
  · intro M O T fs s s2 h
    exact restoreSt_lrSched fs s s2 h

/-- Witness for C10: a schedule-configured outer optimizer still yields
`none`, and a concrete successful restore preserves the field. -/
theorem claim10_witness :
    initLrSchedule (.scheduleRate fun _ => 1) 3 = none ∧
    restoreSt fsWit sWit = .ok sWit2 ∧
    sWit2.lrSched = sWit.lrSched :=
  ⟨claim10_lr_schedule_none.1 (.scheduleRate fun _ => 1) 3, rfl,
    claim10_lr_schedule_none.2 ℕ ℕ ℕ fsWit sWit sWit2 rfl⟩

end TorchMamlModel
